import Mathlib

/-!
Verification of the password-manager storage engine (src/lib/storage.ts,
src/lib/crypto.ts, src/lib/passwordGenerator.ts) against its design spec.

Bytes are modelled as `List Nat`.  The external platform primitives that the
code calls (Web Crypto's AES-GCM and PBKDF2, `TextEncoder`/`TextDecoder`,
`btoa`/`atob`, `JSON.stringify`/`JSON.parse`) are not code of this repository;
they are modelled as the fields of a `Platform` structure, and the behaviour
the platform documents (round-tripping) is assumed only where needed, as
explicit hypotheses (`AesRoundtrip`, `Utf8Roundtrip`, `B64Roundtrip`).
Randomness (salts, IVs, random indices) is passed in as explicit arguments.
The base64-encoded blob type is abstract (`β`), since the code treats the
encoded text opaquely between `btoa` and `atob`.
-/

/-- Model of a vault entry (interface `PasswordEntry` in storage.ts).
Optional TS fields (`url?`, `notes?`, `category?`) become `Option String`. -/
structure PasswordEntry where
  id : String
  serviceName : String
  username : String
  password : String
  url : Option String
  notes : Option String
  category : Option String
  createdAt : String
  updatedAt : String
deriving DecidableEq, Inhabited, Repr

/-- The external platform primitives used by crypto.ts / storage.ts.
`β` is the type of the base64-encoded text blobs produced by `btoa`. -/
structure Platform (β : Type) where
  /-- `deriveKey` (PBKDF2): deterministic in password and salt. -/
  kdf : String → List Nat → List Nat
  /-- `crypto.subtle.encrypt` with AES-GCM: key, iv, plaintext bytes. -/
  aesEnc : List Nat → List Nat → List Nat → List Nat
  /-- `crypto.subtle.decrypt` with AES-GCM; `none` models a rejected promise
  (authentication failure / malformed input). -/
  aesDec : List Nat → List Nat → List Nat → Option (List Nat)
  /-- `new TextEncoder().encode`. -/
  utf8Enc : String → List Nat
  /-- `new TextDecoder().decode` (non-fatal mode: total). -/
  utf8Dec : List Nat → String
  /-- `btoa(String.fromCharCode(...))`. -/
  b64Enc : List Nat → β
  /-- `atob` + `charCodeAt`; `none` models an `atob` throw on invalid input. -/
  b64Dec : β → Option (List Nat)
  /-- `JSON.stringify` on an entry array. -/
  stringifyEntries : List PasswordEntry → String
  /-- `JSON.parse` of a string, read back as an entry array; `none` models a
  `JSON.parse` throw. -/
  parseEntries : String → Option (List PasswordEntry)

/-- AES-GCM decryption inverts encryption under the same key and IV
(documented behaviour of the Web Crypto AEAD). -/
def AesRoundtrip {β : Type} (P : Platform β) : Prop :=
  ∀ key iv p, P.aesDec key iv (P.aesEnc key iv p) = some p

/-- `TextDecoder` inverts `TextEncoder`. -/
def Utf8Roundtrip {β : Type} (P : Platform β) : Prop :=
  ∀ s, P.utf8Dec (P.utf8Enc s) = s

/-- `atob` inverts `btoa`. -/
def B64Roundtrip {β : Type} (P : Platform β) : Prop :=
  ∀ bs, P.b64Dec (P.b64Enc bs) = some bs

/-- crypto.ts `encrypt`: derive key from password and (random, 16-byte) salt,
AES-GCM-encrypt the UTF-8 plaintext under a (random, 12-byte) `iv`, and
base64-encode `salt ++ iv ++ ciphertext`.  The random draws `salt` and `iv`
are explicit arguments. -/
def encrypt {β : Type} (P : Platform β) (salt iv : List Nat)
    (plaintext password : String) : β :=
  let key := P.kdf password salt
  let plaintextBuffer := P.utf8Enc plaintext
  let ciphertext := P.aesEnc key iv plaintextBuffer
  P.b64Enc (salt ++ iv ++ ciphertext)

/-- crypto.ts `decrypt`: base64-decode, split off the 16-byte salt and the
12-byte IV (`slice(0,16)`, `slice(16,28)`, `slice(28)`), re-derive the key
with the extracted salt, and AES-GCM-decrypt.  `none` models any thrown
error / rejected promise. -/
def decrypt {β : Type} (P : Platform β) (encryptedData : β)
    (password : String) : Option String :=
  match P.b64Dec encryptedData with
  | none => none
  | some combined =>
    let salt := combined.take 16
    let iv := (combined.drop 16).take 12
    let ciphertext := combined.drop 28
    let key := P.kdf password salt
    match P.aesDec key iv ciphertext with
    | none => none
    | some plaintextBuffer => some (P.utf8Dec plaintextBuffer)

/-- The fixed sentinel of crypto.ts `createPasswordVerifier`. -/
def verificationString : String := "PASSWORD_VERIFICATION_STRING"

/-- crypto.ts `createPasswordVerifier`: seal the fixed sentinel. -/
def createPasswordVerifier {β : Type} (P : Platform β) (salt iv : List Nat)
    (password : String) : β :=
  encrypt P salt iv verificationString password

/-- crypto.ts `verifyPassword`: decrypt and compare against the sentinel;
any thrown error is caught and yields `false`. -/
def verifyPassword {β : Type} (P : Platform β) (password : String)
    (verifier : β) : Bool :=
  match decrypt P verifier password with
  | some decrypted => decrypted == verificationString
  | none => false

/-- Shared round-trip lemma for the seal/open pipeline: with a 16-byte salt
and a 12-byte IV, `decrypt` undoes `encrypt` under the same password. -/
theorem decrypt_encrypt_aux {β : Type} (P : Platform β)
    (hA : AesRoundtrip P) (hU : Utf8Roundtrip P) (hB : B64Roundtrip P)
    (salt iv : List Nat) (hs : salt.length = 16) (hi : iv.length = 12)
    (p k : String) :
    decrypt P (encrypt P salt iv p k) k = some p := by
  unfold encrypt decrypt
  rw [hB]
  have h1 : (salt ++ (iv ++ P.aesEnc (P.kdf k salt) iv (P.utf8Enc p))).take 16
      = salt := List.take_left' hs
  have h2 : (salt ++ (iv ++ P.aesEnc (P.kdf k salt) iv (P.utf8Enc p))).drop 16
      = iv ++ P.aesEnc (P.kdf k salt) iv (P.utf8Enc p) := List.drop_left' hs
  have h3 : (salt ++ (iv ++ P.aesEnc (P.kdf k salt) iv (P.utf8Enc p))).drop 28
      = P.aesEnc (P.kdf k salt) iv (P.utf8Enc p) := by
    have h28 : (28 : Nat) = 16 + 12 := by norm_num
    rw [h28, ← List.drop_drop, h2, List.drop_left' hi]
  simp only [List.append_assoc] at *
  rw [h1, h2, List.take_left' hi, h3, hA]
  simp only [Option.some.injEq]
  exact hU p

/-- C1: for every plaintext string `p` and password `k`, decrypting the
result of encrypting `p` under `k` with the same password `k` returns
exactly `p` (`open(seal(p,k),k) = p`), given the documented behaviour of the
platform AEAD/UTF-8/base64 primitives and the fixed 16-byte salt and
12-byte IV the code draws. -/
theorem encrypt_decrypt_roundtrip {β : Type} (P : Platform β)
    (hA : AesRoundtrip P) (hU : Utf8Roundtrip P) (hB : B64Roundtrip P)
    (salt iv : List Nat) (hs : salt.length = 16) (hi : iv.length = 12)
    (p k : String) :
    decrypt P (encrypt P salt iv p k) k = some p :=
  decrypt_encrypt_aux P hA hU hB salt iv hs hi p k

/-- A concrete instantiation of the platform used to evaluate the theorems on
closed inputs: the AEAD tags the ciphertext with the key (an ideal-cipher
marker that decryption checks), UTF-8 is char-code encoding, base64 is the
identity transport on `List Nat`, and the JSON codec recognises the two
concrete strings used in the witnesses. -/
def entry0 : PasswordEntry :=
  ⟨"id1", "svc", "user", "secret", none, none, none, "t0", "t0"⟩

def W : Platform (List Nat) where
  kdf := fun pw salt => pw.length :: salt
  aesEnc := fun key _iv p => key.length :: (key ++ p)
  aesDec := fun key _iv c =>
    match c with
    | [] => none
    | n :: rest =>
      if n = key.length ∧ rest.take key.length = key then
        some (rest.drop key.length)
      else none
  utf8Enc := fun s => s.data.map Char.toNat
  utf8Dec := fun bs => String.mk (bs.map Char.ofNat)
  b64Enc := fun bs => bs
  b64Dec := fun bs => some bs
  stringifyEntries := fun ps => if ps = [] then "[]" else "[0]"
  parseEntries := fun s =>
    if s = "[]" then some [] else if s = "[0]" then some [entry0] else none

theorem W_aes : AesRoundtrip W := by
  intro key iv p
  simp [W, List.take_left, List.drop_left]

theorem W_utf8 : Utf8Roundtrip W := by
  intro s
  cases s with
  | mk data =>
    simp [W, List.map_map, Function.comp_def, Char.ofNat_toNat]

theorem W_b64 : B64Roundtrip W := by
  intro bs
  rfl

def salt16 : List Nat := List.replicate 16 7
def iv12 : List Nat := List.replicate 12 3

/-- Witness for C1 at a concrete platform, salt, IV, plaintext and password. -/
theorem encrypt_decrypt_roundtrip_witness :
    decrypt W (encrypt W salt16 iv12 "hello" "pw") "pw" = some "hello" :=
  encrypt_decrypt_roundtrip W W_aes W_utf8 W_b64 salt16 iv12
    (by decide) (by decide) "hello" "pw"

/-- C2: `verifyPassword(k, createPasswordVerifier(k))` returns `true`; and
for every password `p` and verifier blob `v`, `verifyPassword(p, v)` is
`true` iff decryption of `v` under `p` succeeds and the recovered plaintext
equals the fixed sentinel exactly.  Any decryption failure or content
mismatch yields `false`; the `try`/`catch` makes the function total
(it never raises), which the model reflects by returning `Bool`. -/
theorem verifyPassword_spec {β : Type} (P : Platform β)
    (hA : AesRoundtrip P) (hU : Utf8Roundtrip P) (hB : B64Roundtrip P)
    (salt iv : List Nat) (hs : salt.length = 16) (hi : iv.length = 12)
    (k : String) :
    verifyPassword P k (createPasswordVerifier P salt iv k) = true
    ∧ ∀ (p : String) (v : β),
        verifyPassword P p v = true ↔ decrypt P v p = some verificationString := by
  constructor
  · unfold verifyPassword createPasswordVerifier
    rw [decrypt_encrypt_aux P hA hU hB salt iv hs hi]
    exact beq_self_eq_true verificationString
  · intro p v
    unfold verifyPassword
    cases h : decrypt P v p with
    | none => simp
    | some s => simp only [h, beq_iff_eq, Option.some.injEq]

/-- Witness for C2 at a concrete platform, salt, IV and password. -/
theorem verifyPassword_spec_witness :
    verifyPassword W "pw" (createPasswordVerifier W salt16 iv12 "pw") = true
    ∧ ∀ (p : String) (v : List Nat),
        verifyPassword W p v = true ↔ decrypt W v p = some verificationString :=
  verifyPassword_spec W W_aes W_utf8 W_b64 salt16 iv12 (by decide) (by decide) "pw"

/-- The three persisted `localStorage` slots used by storage.ts
(`pm_password_verifier`, `pm_encrypted_data`, `pm_initialized`);
`none` models an absent key. -/
structure Store (β : Type) where
  verifier : Option β
  data : Option β
  initialized : Option String
deriving DecidableEq

/-- storage.ts `isAppInitialized` (in the browser, where `window` exists). -/
def isAppInitialized {β : Type} (st : Store β) : Bool :=
  st.initialized == some "true"

/-- storage.ts `initializeApp`: creates a verifier, seals an empty entry
list, and writes the three slots.  The two random (salt, IV) pairs drawn by
the two `encrypt` calls are explicit arguments.  Note the source performs no
initialization check. -/
def initializeApp {β : Type} (P : Platform β) (s1 i1 s2 i2 : List Nat)
    (masterPassword : String) (_st : Store β) : Store β :=
  let verifier := createPasswordVerifier P s1 i1 masterPassword
  let encryptedData := encrypt P s2 i2 (P.stringifyEntries []) masterPassword
  { verifier := some verifier
    data := some encryptedData
    initialized := some "true" }

/-- The message of the single generic error thrown by storage.ts
`getPasswords` (`'データの復号に失敗しました'`). -/
def decryptFailMsg : String := "データの復号に失敗しました"

/-- storage.ts `getPasswords`: absent data slot yields `[]`; otherwise
decrypt and `JSON.parse`, with any failure of either step caught and
re-thrown as the single generic error. -/
def getPasswords {β : Type} (P : Platform β) (st : Store β)
    (masterPassword : String) : Except String (List PasswordEntry) :=
  match st.data with
  | none => Except.ok []
  | some encryptedData =>
    match decrypt P encryptedData masterPassword with
    | none => Except.error decryptFailMsg
    | some decrypted =>
      match P.parseEntries decrypted with
      | none => Except.error decryptFailMsg
      | some ps => Except.ok ps

/-- storage.ts `savePasswords`: re-encrypt the serialized list into the data
slot (salt/IV of the fresh `encrypt` call explicit). -/
def savePasswords {β : Type} (P : Platform β) (salt iv : List Nat)
    (passwords : List PasswordEntry) (masterPassword : String)
    (st : Store β) : Store β :=
  { st with data := some (encrypt P salt iv (P.stringifyEntries passwords) masterPassword) }

/-- JS `Array.prototype.findIndex`, as an `Option Nat`. -/
def findIndex {α : Type} (p : α → Bool) : List α → Option Nat
  | [] => none
  | a :: l => if p a then some 0 else (findIndex p l).map (· + 1)

/-- The update payload of storage.ts `updatePassword`
(`Partial<Omit<PasswordEntry, 'id' | 'createdAt' | 'updatedAt'>>`):
`some` marks a supplied field. -/
structure EntryUpdates where
  serviceName : Option String
  username : Option String
  password : Option String
  url : Option String
  notes : Option String
  category : Option String
deriving DecidableEq, Inhabited

/-- The spread merge `{ ...passwords[index], ...updates, updatedAt: now }`. -/
def applyUpdates (e : PasswordEntry) (u : EntryUpdates) (now : String) :
    PasswordEntry where
  id := e.id
  serviceName := u.serviceName.getD e.serviceName
  username := u.username.getD e.username
  password := u.password.getD e.password
  url := match u.url with | some v => some v | none => e.url
  notes := match u.notes with | some v => some v | none => e.notes
  category := match u.category with | some v => some v | none => e.category
  createdAt := e.createdAt
  updatedAt := now

/-- storage.ts `updatePassword`: read the full collection, find the first
entry with the given id; absent id returns `null` without saving; otherwise
merge, stamp `updatedAt`, save and return the merged entry.  `now` is the
current time, salt/IV are the fresh random draws of the save. -/
def updatePassword {β : Type} (P : Platform β) (salt iv : List Nat)
    (now id : String) (updates : EntryUpdates) (masterPassword : String)
    (st : Store β) : Except String (Option PasswordEntry × Store β) :=
  match getPasswords P st masterPassword with
  | Except.error e => Except.error e
  | Except.ok passwords =>
    match findIndex (fun p => p.id == id) passwords with
    | none => Except.ok (none, st)
    | some index =>
      let newEntry := applyUpdates (passwords.getD index default) updates now
      let passwords2 := passwords.set index newEntry
      Except.ok (some newEntry, savePasswords P salt iv passwords2 masterPassword st)

/-- storage.ts `deletePassword`: read the full collection, find the first
entry with the given id; absent id returns `false` without saving; otherwise
`splice` it out, save, and return `true`. -/
def deletePassword {β : Type} (P : Platform β) (salt iv : List Nat)
    (id : String) (masterPassword : String) (st : Store β) :
    Except String (Bool × Store β) :=
  match getPasswords P st masterPassword with
  | Except.error e => Except.error e
  | Except.ok passwords =>
    match findIndex (fun p => p.id == id) passwords with
    | none => Except.ok (false, st)
    | some index =>
      Except.ok (true, savePasswords P salt iv (passwords.eraseIdx index) masterPassword st)

/-- Prefix test on char lists (`sub` is a prefix of `hay`). -/
def hasPre : List Char → List Char → Bool
  | _, [] => true
  | [], _ :: _ => false
  | a :: hs, b :: ss => a == b && hasPre hs ss

/-- JS `String.prototype.includes` on char lists: `jsIncludes hay sub`. -/
def jsIncludes : List Char → List Char → Bool
  | [], sub => hasPre [] sub
  | a :: t, sub => hasPre (a :: t) sub || jsIncludes t sub

/-- JS `String.prototype.toLowerCase`, as a char list. -/
def strLower (s : String) : List Char := s.data.map Char.toLower

/-- The filter predicate of storage.ts `searchPasswords`, literally: note the
JS truthiness guards `p.url && ...` etc., under which an empty optional
field never matches. -/
def codeMatches (lowerQuery : List Char) (p : PasswordEntry) : Bool :=
  jsIncludes (strLower p.serviceName) lowerQuery ||
  jsIncludes (strLower p.username) lowerQuery ||
  (match p.url with
   | some u => !(u == "") && jsIncludes (strLower u) lowerQuery
   | none => false) ||
  (match p.notes with
   | some n => !(n == "") && jsIncludes (strLower n) lowerQuery
   | none => false) ||
  (match p.category with
   | some c => !(c == "") && jsIncludes (strLower c) lowerQuery
   | none => false)

/-- storage.ts `searchPasswords`: filter the decrypted collection by
case-insensitive substring over serviceName/username/url/notes/category.
It performs no write, so the store passes through unchanged. -/
def searchPasswords {β : Type} (P : Platform β) (query masterPassword : String)
    (st : Store β) : Except String (List PasswordEntry × Store β) :=
  match getPasswords P st masterPassword with
  | Except.error e => Except.error e
  | Except.ok passwords =>
    let lowerQuery := strLower query
    Except.ok (passwords.filter (codeMatches lowerQuery), st)

theorem findIndex_eq_none {α : Type} (p : α → Bool) (l : List α)
    (h : ∀ a ∈ l, p a = false) : findIndex p l = none := by
  induction l with
  | nil => rfl
  | cons a t ih =>
    have ha := h a (List.mem_cons_self a t)
    simp only [findIndex, ha, if_neg Bool.false_ne_true]
    rw [ih (fun x hx => h x (List.mem_cons_of_mem a hx))]
    rfl

theorem findIndex_first {α : Type} (p : α → Bool) (l₁ : List α) (e : α)
    (l₂ : List α) (h1 : ∀ a ∈ l₁, p a = false) (he : p e = true) :
    findIndex p (l₁ ++ e :: l₂) = some l₁.length := by
  induction l₁ with
  | nil => simp [findIndex, he]
  | cons a t ih =>
    have ha := h1 a (List.mem_cons_self a t)
    simp only [List.cons_append, findIndex, ha, if_neg Bool.false_ne_true,
      List.append_eq]
    rw [ih (fun x hx => h1 x (List.mem_cons_of_mem a hx))]
    rfl

theorem getD_append_len {α : Type} (l₁ : List α) (e : α) (l₂ : List α)
    (d : α) : (l₁ ++ e :: l₂).getD l₁.length d = e := by
  induction l₁ with
  | nil => rfl
  | cons a t ih =>
    simp only [List.cons_append, List.length_cons, List.getD_cons_succ]
    exact ih

theorem set_append_len {α : Type} (l₁ : List α) (e x : α) (l₂ : List α) :
    (l₁ ++ e :: l₂).set l₁.length x = l₁ ++ x :: l₂ := by
  induction l₁ with
  | nil => rfl
  | cons a t ih => simpa using ih

theorem eraseIdx_append_len {α : Type} (l₁ : List α) (e : α) (l₂ : List α) :
    (l₁ ++ e :: l₂).eraseIdx l₁.length = l₁ ++ l₂ := by
  induction l₁ with
  | nil => rfl
  | cons a t ih => simpa using ih

/-- The claim-side merge contract for C3: the merged entry keeps the id and
`createdAt`, stamps `updatedAt = now`, takes every supplied field from the
update payload, and leaves every unsupplied field untouched. -/
def MergeSpec (e : PasswordEntry) (u : EntryUpdates) (now : String)
    (m : PasswordEntry) : Prop :=
  m.id = e.id ∧ m.createdAt = e.createdAt ∧ m.updatedAt = now
  ∧ (∀ v, u.serviceName = some v → m.serviceName = v)
  ∧ (u.serviceName = none → m.serviceName = e.serviceName)
  ∧ (∀ v, u.username = some v → m.username = v)
  ∧ (u.username = none → m.username = e.username)
  ∧ (∀ v, u.password = some v → m.password = v)
  ∧ (u.password = none → m.password = e.password)
  ∧ (∀ v, u.url = some v → m.url = some v)
  ∧ (u.url = none → m.url = e.url)
  ∧ (∀ v, u.notes = some v → m.notes = some v)
  ∧ (u.notes = none → m.notes = e.notes)
  ∧ (∀ v, u.category = some v → m.category = some v)
  ∧ (u.category = none → m.category = e.category)

theorem applyUpdates_merge (e : PasswordEntry) (u : EntryUpdates)
    (now : String) : MergeSpec e u now (applyUpdates e u now) := by
  refine ⟨rfl, rfl, rfl, ?_, ?_, ?_, ?_, ?_, ?_, ?_, ?_, ?_, ?_, ?_, ?_⟩ <;>
    first
      | (intro v h; simp [applyUpdates, h])
      | (intro h; simp [applyUpdates, h])

/-- C3: `update` on a collection with no entry of the given id returns
absent (`null`) and leaves the persisted store unchanged; when the (first)
entry with the id exists, it merges only the supplied fields, stamps
`updatedAt = now`, keeps `createdAt` and unsupplied fields, persists the
re-sealed collection with only that entry replaced, and returns the merged
entry. -/
theorem updatePassword_spec {β : Type} (P : Platform β) (salt iv : List Nat)
    (now id : String) (u : EntryUpdates) (pw : String) (st : Store β)
    (ps : List PasswordEntry) (h : getPasswords P st pw = Except.ok ps) :
    ((∀ e ∈ ps, ¬ e.id = id) →
      updatePassword P salt iv now id u pw st = Except.ok (none, st))
    ∧ (∀ l₁ e l₂, ps = l₁ ++ e :: l₂ → e.id = id → (∀ x ∈ l₁, ¬ x.id = id) →
        updatePassword P salt iv now id u pw st =
          Except.ok (some (applyUpdates e u now),
            { st with data := some (encrypt P salt iv
                (P.stringifyEntries (l₁ ++ applyUpdates e u now :: l₂)) pw) })
        ∧ MergeSpec e u now (applyUpdates e u now)) := by
  constructor
  · intro habs
    have hf : findIndex (fun p => p.id == id) ps = none :=
      findIndex_eq_none _ _ (fun a ha => by
        simpa [beq_eq_false_iff_ne] using habs a ha)
    simp only [updatePassword, h, hf]
  · intro l₁ e l₂ hps he hl₁
    subst hps
    have hf : findIndex (fun p => p.id == id) (l₁ ++ e :: l₂) = some l₁.length :=
      findIndex_first _ _ _ _
        (fun a ha => by simpa [beq_eq_false_iff_ne] using hl₁ a ha)
        (by simpa [beq_iff_eq] using he)
    refine ⟨?_, applyUpdates_merge e u now⟩
    simp only [updatePassword, h, hf, getD_append_len, set_append_len,
      savePasswords]

/-- C4: `delete` removes exactly the (first) entry with the given id when
present, leaving every other entry unchanged, persists the re-sealed
collection and returns `true`; deleting a non-existent id returns `false`
and leaves the persisted store identical (no save happens). -/
theorem deletePassword_spec {β : Type} (P : Platform β) (salt iv : List Nat)
    (id : String) (pw : String) (st : Store β)
    (ps : List PasswordEntry) (h : getPasswords P st pw = Except.ok ps) :
    ((∀ e ∈ ps, ¬ e.id = id) →
      deletePassword P salt iv id pw st = Except.ok (false, st))
    ∧ (∀ l₁ e l₂, ps = l₁ ++ e :: l₂ → e.id = id → (∀ x ∈ l₁, ¬ x.id = id) →
        deletePassword P salt iv id pw st =
          Except.ok (true,
            { st with data := some (encrypt P salt iv
                (P.stringifyEntries (l₁ ++ l₂)) pw) })) := by
  constructor
  · intro habs
    have hf : findIndex (fun p => p.id == id) ps = none :=
      findIndex_eq_none _ _ (fun a ha => by
        simpa [beq_eq_false_iff_ne] using habs a ha)
    simp only [deletePassword, h, hf]
  · intro l₁ e l₂ hps he hl₁
    subst hps
    have hf : findIndex (fun p => p.id == id) (l₁ ++ e :: l₂) = some l₁.length :=
      findIndex_first _ _ _ _
        (fun a ha => by simpa [beq_eq_false_iff_ne] using hl₁ a ha)
        (by simpa [beq_iff_eq] using he)
    simp only [deletePassword, h, hf, eraseIdx_append_len, savePasswords]

/-- Store holding the single sealed entry `entry0` under password "mp",
used to evaluate the CRUD theorems on closed inputs. -/
def stOne : Store (List Nat) :=
  ⟨none, some (encrypt W salt16 iv12 "[0]" "mp"), some "true"⟩

def upd0 : EntryUpdates := ⟨some "svc2", none, none, none, none, none⟩

/-- Witness for C3: updating the present entry `entry0` in `stOne` merges
the supplied serviceName, stamps `updatedAt`, and persists the re-sealed
one-entry collection. -/
theorem updatePassword_spec_witness :
    updatePassword W salt16 iv12 "t1" "id1" upd0 "mp" stOne =
      Except.ok (some (applyUpdates entry0 upd0 "t1"),
        { stOne with data := some (encrypt W salt16 iv12
            (W.stringifyEntries [applyUpdates entry0 upd0 "t1"]) "mp") })
    ∧ MergeSpec entry0 upd0 "t1" (applyUpdates entry0 upd0 "t1") :=
  (updatePassword_spec W salt16 iv12 "t1" "id1" upd0 "mp" stOne [entry0]
    rfl).2 [] entry0 [] rfl rfl (fun x hx => absurd hx (List.not_mem_nil x))

/-- Witness for C4: deleting the present entry `entry0` from `stOne`
persists the re-sealed empty collection and returns `true`. -/
theorem deletePassword_spec_witness :
    deletePassword W salt16 iv12 "id1" "mp" stOne =
      Except.ok (true,
        { stOne with data := some (encrypt W salt16 iv12
            (W.stringifyEntries ([] : List PasswordEntry)) "mp") }) :=
  (deletePassword_spec W salt16 iv12 "id1" "mp" stOne [entry0]
    rfl).2 [] entry0 [] rfl rfl (fun x hx => absurd hx (List.not_mem_nil x))

theorem jsIncludes_nil_right (hay : List Char) : jsIncludes hay [] = true := by
  cases hay <;> simp [jsIncludes, hasPre]

theorem jsIncludes_nil_left (sub : List Char) (h : sub ≠ []) :
    jsIncludes [] sub = false := by
  cases sub with
  | nil => exact absurd rfl h
  | cons b ss => rfl

/-- The claim-side search predicate for C10: the query is a case-insensitive
substring of serviceName, username, url, notes or category (absent optional
fields never match). -/
def fieldHas (lowerQuery : List Char) (s : String) : Bool :=
  jsIncludes (strLower s) lowerQuery

def optFieldHas (lowerQuery : List Char) : Option String → Bool
  | none => false
  | some s => fieldHas lowerQuery s

def claimMatches (query : String) (p : PasswordEntry) : Bool :=
  fieldHas (strLower query) p.serviceName ||
  fieldHas (strLower query) p.username ||
  optFieldHas (strLower query) p.url ||
  optFieldHas (strLower query) p.notes ||
  optFieldHas (strLower query) p.category

theorem opt_clause_eq (q : List Char) (hq : q ≠ []) (o : Option String) :
    (match o with
     | some u => !(u == "") && jsIncludes (strLower u) q
     | none => false) = optFieldHas q o := by
  cases o with
  | none => rfl
  | some u =>
    by_cases hu : u = ""
    · subst hu
      simp [optFieldHas, fieldHas, strLower, jsIncludes_nil_left _ hq]
    · simp [optFieldHas, fieldHas, hu]

theorem codeMatches_eq_claimMatches (q : String) (p : PasswordEntry) :
    codeMatches (strLower q) p = claimMatches q p := by
  by_cases hq : strLower q = []
  · unfold codeMatches claimMatches fieldHas optFieldHas
    rw [hq]
    simp [jsIncludes_nil_right]
  · unfold codeMatches claimMatches
    rw [opt_clause_eq _ hq, opt_clause_eq _ hq, opt_clause_eq _ hq]
    rfl

/-- C10: `search` returns exactly the entries of the decrypted collection
whose serviceName, username, url, notes or category contains the query as a
case-insensitive substring, in their original order (a filter), and returns
the persisted store unchanged. -/
theorem searchPasswords_spec {β : Type} (P : Platform β)
    (query pw : String) (st : Store β) (ps : List PasswordEntry)
    (h : getPasswords P st pw = Except.ok ps) :
    searchPasswords P query pw st =
      Except.ok (ps.filter (claimMatches query), st) := by
  simp only [searchPasswords, h]
  rw [List.filter_congr (fun x _ => codeMatches_eq_claimMatches query x)]

/-- Witness for C10: searching `stOne` for "SV" matches `entry0` through its
serviceName "svc", case-insensitively, and the store passes through. -/
theorem searchPasswords_spec_witness :
    searchPasswords W "SV" "mp" stOne =
      Except.ok ([entry0].filter (claimMatches "SV"), stOne) :=
  searchPasswords_spec W "SV" "mp" stOne [entry0] rfl

/-- An already-initialized store with distinguishable slot contents. -/
def stInit : Store (List Nat) := ⟨some [1], some [2], some "true"⟩

/-- C5 counterexample: `initializeApp` does not fail on an
already-initialized vault — called on `stInit` (whose `initialized` flag is
set) it performs its writes, replacing the stored slots rather than leaving
them alone or failing. -/
theorem initializeApp_counterexample :
    isAppInitialized stInit = true
    ∧ initializeApp W salt16 iv12 salt16 iv12 "mp" stInit ≠ stInit
    ∧ isAppInitialized (initializeApp W salt16 iv12 salt16 iv12 "mp" stInit)
        = true := by
  refine ⟨rfl, ?_, rfl⟩
  intro hcontra
  have : (initializeApp W salt16 iv12 salt16 iv12 "mp" stInit).verifier
      = stInit.verifier := by rw [hcontra]
  simp [initializeApp, stInit, createPasswordVerifier, encrypt, W, salt16] at this

/-- C5 (amended): `initializeApp` never fails: initialized or not, it
unconditionally writes a fresh VerifierRecord, a sealed empty entry
collection, and `initialized = "true"` to the three persisted slots,
ignoring (and overwriting) any prior state. -/
theorem initializeApp_overwrites {β : Type} (P : Platform β)
    (s1 i1 s2 i2 : List Nat) (pw : String) (st st' : Store β) :
    initializeApp P s1 i1 s2 i2 pw st =
      { verifier := some (createPasswordVerifier P s1 i1 pw)
        data := some (encrypt P s2 i2 (P.stringifyEntries []) pw)
        initialized := some "true" }
    ∧ isAppInitialized (initializeApp P s1 i1 s2 i2 pw st) = true
    ∧ initializeApp P s1 i1 s2 i2 pw st = initializeApp P s1 i1 s2 i2 pw st' :=
  ⟨rfl, rfl, rfl⟩

/-- A store whose data blob fails authenticated decryption (a cryptographic
failure). -/
def stBadCrypto : Store (List Nat) := ⟨none, some [], none⟩

/-- A store whose data blob decrypts fine but does not parse as an entry
collection (a format failure). -/
def stBadFormat : Store (List Nat) :=
  ⟨none, some (encrypt W salt16 iv12 "x" "mp"), none⟩

/-- C6 counterexample: a cryptographic failure (`stBadCrypto`: AEAD
decryption fails) and a format failure (`stBadFormat`: decryption succeeds
with "x" but parsing fails) surface as the SAME error value — the single
generic message — not as two distinct error kinds propagated unmodified. -/
theorem getPasswords_error_counterexample :
    decrypt W [] "mp" = none
    ∧ (∃ s, decrypt W (encrypt W salt16 iv12 "x" "mp") "mp" = some s
        ∧ W.parseEntries s = none)
    ∧ getPasswords W stBadCrypto "mp" = Except.error decryptFailMsg
    ∧ getPasswords W stBadFormat "mp" = Except.error decryptFailMsg :=
  ⟨rfl, ⟨"x", rfl, rfl⟩, rfl, rfl⟩

/-- C6 (amended): whenever `getPasswords` fails, both cryptographic and
format failures are surfaced as one single error kind — the generic message
`'データの復号に失敗しました'` — replacing the underlying error rather than
propagating it unmodified. -/
theorem getPasswords_single_error_kind {β : Type} (P : Platform β)
    (st : Store β) (pw : String)
    (h : ∃ e, getPasswords P st pw = Except.error e) :
    getPasswords P st pw = Except.error decryptFailMsg := by
  obtain ⟨e, he⟩ := h
  unfold getPasswords at he ⊢
  rcases hst : st.data with _ | blob
  · rw [hst] at he
    exact Except.noConfusion he
  · rw [hst] at he
    cases hdec : decrypt P blob pw with
    | none => simp only [hdec]
    | some s =>
      simp only [hdec] at he ⊢
      cases hp : P.parseEntries s with
      | none => rfl
      | some ps =>
        simp only [hp] at he
        exact Except.noConfusion he

/-- Witness for C6's amended theorem at the concrete failing store. -/
theorem getPasswords_single_error_kind_witness :
    getPasswords W stBadCrypto "mp" = Except.error decryptFailMsg :=
  getPasswords_single_error_kind W stBadCrypto "mp" ⟨decryptFailMsg, rfl⟩

/-- The four character classes of passwordGenerator.ts. -/
def LOWERCASE : String := "abcdefghijklmnopqrstuvwxyz"

def UPPERCASE : String := "ABCDEFGHIJKLMNOPQRSTUVWXYZ"

def NUMBERS : String := "0123456789"

def SYMBOLS : String := "!@#$%^&*()_+-=[]\x7b\x7d|;:,.<>?"

/-- passwordGenerator.ts `PasswordOptions`. -/
structure PasswordOptions where
  length : Nat
  includeLowercase : Bool
  includeUppercase : Bool
  includeNumbers : Bool
  includeSymbols : Bool

/-- One step of the JS destructuring swap
`[a[i], a[j]] = [a[j], a[i]]` on a list. -/
def listSwap (l : List Char) (i j : Nat) : List Char :=
  let a := l.getD i 'a'
  let b := l.getD j 'a'
  (l.set i b).set j a

/-- The Fisher–Yates loop of `generatePassword`, counting `i` down; the
random draw used at index `i` is `r i`, reduced modulo `i + 1` exactly as in
the source (`shuffleValues[i] % (i + 1)`). -/
def fyAux (r : Nat → Nat) : List Char → Nat → List Char
  | l, 0 => l
  | l, i + 1 => fyAux r (listSwap l (i + 1) (r (i + 1) % (i + 1 + 1))) i

/-- The full shuffle: the loop starts at `length - 1` and stops before 0. -/
def fyShuffle (r : Nat → Nat) (l : List Char) : List Char :=
  match l.length with
  | 0 => l
  | n + 1 => fyAux r l n

/-- The message of the error thrown by `generatePassword` when no character
class is selected (`'少なくとも1つの文字種類を選択してください'`). -/
def policyErrorMsg : String := "少なくとも1つの文字種類を選択してください"

/-- The `charset` accumulated by `generatePassword` (enabled classes,
concatenated in source order). -/
def charsetOf (o : PasswordOptions) : List Char :=
  (if o.includeLowercase then LOWERCASE.data else []) ++
  (if o.includeUppercase then UPPERCASE.data else []) ++
  (if o.includeNumbers then NUMBERS.data else []) ++
  (if o.includeSymbols then SYMBOLS.data else [])

/-- The `requiredChars` list (one random pick per enabled class, in source
order); the picks `Math.floor(Math.random() * len)` are modelled as the
explicit draws `rL`, `rU`, `rN`, `rS` reduced modulo the class size. -/
def requiredOf (o : PasswordOptions) (rL rU rN rS : Nat) : List Char :=
  (if o.includeLowercase then
     [LOWERCASE.data.getD (rL % LOWERCASE.data.length) 'a'] else []) ++
  (if o.includeUppercase then
     [UPPERCASE.data.getD (rU % UPPERCASE.data.length) 'a'] else []) ++
  (if o.includeNumbers then
     [NUMBERS.data.getD (rN % NUMBERS.data.length) 'a'] else []) ++
  (if o.includeSymbols then
     [SYMBOLS.data.getD (rS % SYMBOLS.data.length) 'a'] else [])

/-- The filler characters `charset[value % charset.length]` drawn from the
`Uint32Array` of length `effectiveLength - requiredChars.length`. -/
def fillOf (o : PasswordOptions) (rFill : Nat → Nat) (n : Nat) : List Char :=
  (List.range n).map (fun i => (charsetOf o).getD (rFill i % (charsetOf o).length) 'a')

/-- passwordGenerator.ts `generatePassword`, with every random draw an
explicit argument. -/
def generatePassword (o : PasswordOptions) (rL rU rN rS : Nat)
    (rFill rShuf : Nat → Nat) : Except String String :=
  let charset := charsetOf o
  let requiredChars := requiredOf o rL rU rN rS
  if charset.length = 0 then Except.error policyErrorMsg
  else
    let effectiveLength := max o.length requiredChars.length
    let passwordChars :=
      requiredChars ++ fillOf o rFill (effectiveLength - requiredChars.length)
    Except.ok (String.mk (fyShuffle rShuf passwordChars))

/-- The number of enabled classes (spec-side). -/
def numEnabled (o : PasswordOptions) : Nat :=
  (if o.includeLowercase then 1 else 0) + (if o.includeUppercase then 1 else 0) +
  (if o.includeNumbers then 1 else 0) + (if o.includeSymbols then 1 else 0)

theorem getD_mem {α : Type} (l : List α) (n : Nat) (d : α)
    (h : n < l.length) : l.getD n d ∈ l := by
  induction l generalizing n with
  | nil => simp at h
  | cons a t ih =>
    cases n with
    | zero => exact List.mem_cons_self a t
    | succ m =>
      simp only [List.getD_cons_succ]
      exact List.mem_cons_of_mem a (ih m (by simpa using h))

theorem listSwap_length (l : List Char) (i j : Nat) :
    (listSwap l i j).length = l.length := by
  simp [listSwap]

theorem mem_listSwap (l : List Char) (i j : Nat) (hi : i < l.length)
    (hj : j < l.length) (x : Char) : x ∈ listSwap l i j ↔ x ∈ l := by
  constructor
  · intro hx
    have hx2 : x ∈ (l.set i (l.getD j 'a')).set j (l.getD i 'a') := hx
    rcases List.mem_or_eq_of_mem_set hx2 with hx1 | hx2
    · rcases List.mem_or_eq_of_mem_set hx1 with hx3 | hx4
      · exact hx3
      · exact hx4 ▸ getD_mem l j 'a' hj
    · exact hx2 ▸ getD_mem l i 'a' hi
  · intro hx
    obtain ⟨k, hk, hkx⟩ := List.mem_iff_getElem.mp hx
    show x ∈ (l.set i (l.getD j 'a')).set j (l.getD i 'a')
    by_cases hki : k = i
    · subst hki
      have hj2 : j < ((l.set k (l.getD j 'a')).set j (l.getD k 'a')).length := by
        simpa using hj
      have hval : ((l.set k (l.getD j 'a')).set j (l.getD k 'a'))[j] = x := by
        rw [List.getElem_set_self, List.getD_eq_getElem l 'a' hk]
        exact hkx
      exact hval ▸ List.getElem_mem hj2
    · by_cases hkj : k = j
      · subst hkj
        have hi2 : i < ((l.set i (l.getD k 'a')).set k (l.getD i 'a')).length := by
          simpa using hi
        have hval : ((l.set i (l.getD k 'a')).set k (l.getD i 'a'))[i] = x := by
          rw [List.getElem_set_ne hki, List.getElem_set_self,
            List.getD_eq_getElem l 'a' hk]
          exact hkx
        exact hval ▸ List.getElem_mem hi2
      · have hk2 : k < ((l.set i (l.getD j 'a')).set j (l.getD i 'a')).length := by
          simpa using hk
        have hval : ((l.set i (l.getD j 'a')).set j (l.getD i 'a'))[k] = x := by
          rw [List.getElem_set_ne (fun h => hkj h.symm),
            List.getElem_set_ne (fun h => hki h.symm)]
          exact hkx
        exact hval ▸ List.getElem_mem hk2

theorem fyAux_facts (r : Nat → Nat) :
    ∀ (i : Nat) (l : List Char), i < l.length →
      (fyAux r l i).length = l.length ∧ ∀ x, x ∈ fyAux r l i ↔ x ∈ l := by
  intro i
  induction i with
  | zero => exact fun l _ => ⟨rfl, fun x => Iff.rfl⟩
  | succ n ih =>
    intro l h
    have hmod : r (n + 1) % (n + 1 + 1) < n + 1 + 1 := Nat.mod_lt _ (by omega)
    have hj : r (n + 1) % (n + 1 + 1) < l.length := by omega
    have hlen : (listSwap l (n + 1) (r (n + 1) % (n + 1 + 1))).length = l.length :=
      listSwap_length l _ _
    have hn : n < (listSwap l (n + 1) (r (n + 1) % (n + 1 + 1))).length := by omega
    obtain ⟨ihlen, ihmem⟩ := ih _ hn
    refine ⟨?_, ?_⟩
    · show (fyAux r (listSwap l (n + 1) (r (n + 1) % (n + 1 + 1))) n).length = l.length
      rw [ihlen, hlen]
    · intro x
      show x ∈ fyAux r (listSwap l (n + 1) (r (n + 1) % (n + 1 + 1))) n ↔ x ∈ l
      rw [ihmem x, mem_listSwap l _ _ h hj x]

theorem fyShuffle_length (r : Nat → Nat) (l : List Char) :
    (fyShuffle r l).length = l.length := by
  unfold fyShuffle
  cases hl : l.length with
  | zero => exact hl
  | succ n =>
    show (fyAux r l n).length = n + 1
    exact ((fyAux_facts r n l (by omega)).1).trans hl

theorem mem_fyShuffle (r : Nat → Nat) (l : List Char) (x : Char) :
    x ∈ fyShuffle r l ↔ x ∈ l := by
  unfold fyShuffle
  cases hl : l.length with
  | zero => exact Iff.rfl
  | succ n =>
    show x ∈ fyAux r l n ↔ x ∈ l
    exact (fyAux_facts r n l (by omega)).2 x

theorem mem_ite_nil {α : Type} {c : Prop} [Decidable c] {x : α} {l : List α}
    (h : x ∈ if c then l else []) : c ∧ x ∈ l := by
  by_cases hc : c
  · rw [if_pos hc] at h
    exact ⟨hc, h⟩
  · rw [if_neg hc] at h
    cases h

/-- `c` belongs to one of the classes enabled by `o`. -/
def InEnabledClass (o : PasswordOptions) (c : Char) : Prop :=
  (o.includeLowercase = true ∧ c ∈ LOWERCASE.data) ∨
  (o.includeUppercase = true ∧ c ∈ UPPERCASE.data) ∨
  (o.includeNumbers = true ∧ c ∈ NUMBERS.data) ∨
  (o.includeSymbols = true ∧ c ∈ SYMBOLS.data)

theorem mem_charsetOf {o : PasswordOptions} {c : Char}
    (h : c ∈ charsetOf o) : InEnabledClass o c := by
  unfold charsetOf at h
  rcases List.mem_append.mp h with h' | h4
  rcases List.mem_append.mp h' with h'' | h3
  rcases List.mem_append.mp h'' with h1 | h2
  · exact Or.inl (mem_ite_nil h1)
  · exact Or.inr (Or.inl (mem_ite_nil h2))
  · exact Or.inr (Or.inr (Or.inl (mem_ite_nil h3)))
  · exact Or.inr (Or.inr (Or.inr (mem_ite_nil h4)))

theorem pick_mem_class (s : String) (r : Nat) (hpos : 0 < s.data.length) :
    s.data.getD (r % s.data.length) 'a' ∈ s.data :=
  getD_mem _ _ _ (Nat.mod_lt r hpos)

theorem mem_requiredOf {o : PasswordOptions} {rL rU rN rS : Nat} {c : Char}
    (h : c ∈ requiredOf o rL rU rN rS) : InEnabledClass o c := by
  unfold requiredOf at h
  rcases List.mem_append.mp h with h' | h4
  rcases List.mem_append.mp h' with h'' | h3
  rcases List.mem_append.mp h'' with h1 | h2
  · obtain ⟨hf, hm⟩ := mem_ite_nil h1
    rcases List.mem_singleton.mp hm with rfl
    exact Or.inl ⟨hf, pick_mem_class LOWERCASE rL (by decide)⟩
  · obtain ⟨hf, hm⟩ := mem_ite_nil h2
    rcases List.mem_singleton.mp hm with rfl
    exact Or.inr (Or.inl ⟨hf, pick_mem_class UPPERCASE rU (by decide)⟩)
  · obtain ⟨hf, hm⟩ := mem_ite_nil h3
    rcases List.mem_singleton.mp hm with rfl
    exact Or.inr (Or.inr (Or.inl ⟨hf, pick_mem_class NUMBERS rN (by decide)⟩))
  · obtain ⟨hf, hm⟩ := mem_ite_nil h4
    rcases List.mem_singleton.mp hm with rfl
    exact Or.inr (Or.inr (Or.inr ⟨hf, pick_mem_class SYMBOLS rS (by decide)⟩))

/-- The four character classes are pairwise disjoint (checked by
computation). -/
theorem class_disjoint :
    (∀ c ∈ UPPERCASE.data, c ∉ LOWERCASE.data) ∧
    (∀ c ∈ NUMBERS.data, c ∉ LOWERCASE.data) ∧
    (∀ c ∈ SYMBOLS.data, c ∉ LOWERCASE.data) ∧
    (∀ c ∈ LOWERCASE.data, c ∉ UPPERCASE.data) ∧
    (∀ c ∈ NUMBERS.data, c ∉ UPPERCASE.data) ∧
    (∀ c ∈ SYMBOLS.data, c ∉ UPPERCASE.data) ∧
    (∀ c ∈ LOWERCASE.data, c ∉ NUMBERS.data) ∧
    (∀ c ∈ UPPERCASE.data, c ∉ NUMBERS.data) ∧
    (∀ c ∈ SYMBOLS.data, c ∉ NUMBERS.data) ∧
    (∀ c ∈ LOWERCASE.data, c ∉ SYMBOLS.data) ∧
    (∀ c ∈ UPPERCASE.data, c ∉ SYMBOLS.data) ∧
    (∀ c ∈ NUMBERS.data, c ∉ SYMBOLS.data) := by decide

theorem notin_lower {o : PasswordOptions} {c : Char} (h : InEnabledClass o c)
    (hf : o.includeLowercase = false) : c ∉ LOWERCASE.data := by
  rcases h with ⟨hb, _⟩ | ⟨_, hm⟩ | ⟨_, hm⟩ | ⟨_, hm⟩
  · rw [hf] at hb
    cases hb
  · exact class_disjoint.1 c hm
  · exact class_disjoint.2.1 c hm
  · exact class_disjoint.2.2.1 c hm

theorem notin_upper {o : PasswordOptions} {c : Char} (h : InEnabledClass o c)
    (hf : o.includeUppercase = false) : c ∉ UPPERCASE.data := by
  rcases h with ⟨_, hm⟩ | ⟨hb, _⟩ | ⟨_, hm⟩ | ⟨_, hm⟩
  · exact class_disjoint.2.2.2.1 c hm
  · rw [hf] at hb
    cases hb
  · exact class_disjoint.2.2.2.2.1 c hm
  · exact class_disjoint.2.2.2.2.2.1 c hm

theorem notin_numbers {o : PasswordOptions} {c : Char} (h : InEnabledClass o c)
    (hf : o.includeNumbers = false) : c ∉ NUMBERS.data := by
  rcases h with ⟨_, hm⟩ | ⟨_, hm⟩ | ⟨hb, _⟩ | ⟨_, hm⟩
  · exact class_disjoint.2.2.2.2.2.2.1 c hm
  · exact class_disjoint.2.2.2.2.2.2.2.1 c hm
  · rw [hf] at hb
    cases hb
  · exact class_disjoint.2.2.2.2.2.2.2.2.1 c hm

theorem notin_symbols {o : PasswordOptions} {c : Char} (h : InEnabledClass o c)
    (hf : o.includeSymbols = false) : c ∉ SYMBOLS.data := by
  rcases h with ⟨_, hm⟩ | ⟨_, hm⟩ | ⟨_, hm⟩ | ⟨hb, _⟩
  · exact class_disjoint.2.2.2.2.2.2.2.2.2.1 c hm
  · exact class_disjoint.2.2.2.2.2.2.2.2.2.2.1 c hm
  · exact class_disjoint.2.2.2.2.2.2.2.2.2.2.2 c hm
  · rw [hf] at hb
    cases hb

theorem charsetOf_length (o : PasswordOptions) :
    (charsetOf o).length =
      (if o.includeLowercase then 26 else 0) +
      (if o.includeUppercase then 26 else 0) +
      (if o.includeNumbers then 10 else 0) +
      (if o.includeSymbols then 26 else 0) := by
  unfold charsetOf
  split_ifs <;> rfl

theorem charsetOf_pos (o : PasswordOptions)
    (h : o.includeLowercase = true ∨ o.includeUppercase = true ∨
      o.includeNumbers = true ∨ o.includeSymbols = true) :
    0 < (charsetOf o).length := by
  rw [charsetOf_length]
  rcases h with h | h | h | h <;> rw [h] <;> split_ifs <;>
    first
      | omega
      | simp_all

theorem requiredOf_length (o : PasswordOptions) (rL rU rN rS : Nat) :
    (requiredOf o rL rU rN rS).length = numEnabled o := by
  unfold requiredOf numEnabled
  split_ifs <;> rfl

theorem fillOf_length (o : PasswordOptions) (rFill : Nat → Nat) (n : Nat) :
    (fillOf o rFill n).length = n := by
  simp [fillOf]

theorem gen_chars_enabled (o : PasswordOptions) (rL rU rN rS : Nat)
    (rFill : Nat → Nat) (n : Nat) (hpos : 0 < (charsetOf o).length)
    (c : Char) (hc : c ∈ requiredOf o rL rU rN rS ++ fillOf o rFill n) :
    InEnabledClass o c := by
  rcases List.mem_append.mp hc with hr | hf
  · exact mem_requiredOf hr
  · obtain ⟨i, _, hif⟩ := List.mem_map.mp hf
    rw [← hif]
    exact mem_charsetOf (getD_mem _ _ _ (Nat.mod_lt _ hpos))

/-- C7: for every policy with a non-empty subset of the four character
classes enabled and every requested length, `generatePassword` returns a
string of length exactly `max(length, numberOfEnabledClasses)` containing at
least one character from every enabled class and zero characters from any
disabled class; with all four classes disabled it fails with the policy
error. -/
theorem generatePassword_spec (o : PasswordOptions) (rL rU rN rS : Nat)
    (rFill rShuf : Nat → Nat) :
    (o.includeLowercase = false ∧ o.includeUppercase = false ∧
        o.includeNumbers = false ∧ o.includeSymbols = false →
      generatePassword o rL rU rN rS rFill rShuf = Except.error policyErrorMsg)
    ∧ ((o.includeLowercase = true ∨ o.includeUppercase = true ∨
        o.includeNumbers = true ∨ o.includeSymbols = true) →
      ∃ out : String, generatePassword o rL rU rN rS rFill rShuf = Except.ok out
        ∧ out.length = max o.length (numEnabled o)
        ∧ (o.includeLowercase = true → ∃ c, c ∈ out.data ∧ c ∈ LOWERCASE.data)
        ∧ (o.includeUppercase = true → ∃ c, c ∈ out.data ∧ c ∈ UPPERCASE.data)
        ∧ (o.includeNumbers = true → ∃ c, c ∈ out.data ∧ c ∈ NUMBERS.data)
        ∧ (o.includeSymbols = true → ∃ c, c ∈ out.data ∧ c ∈ SYMBOLS.data)
        ∧ (o.includeLowercase = false → ∀ c ∈ out.data, c ∉ LOWERCASE.data)
        ∧ (o.includeUppercase = false → ∀ c ∈ out.data, c ∉ UPPERCASE.data)
        ∧ (o.includeNumbers = false → ∀ c ∈ out.data, c ∉ NUMBERS.data)
        ∧ (o.includeSymbols = false → ∀ c ∈ out.data, c ∉ SYMBOLS.data)) := by
  constructor
  · rintro ⟨h1, h2, h3, h4⟩
    have hc : (charsetOf o).length = 0 := by
      unfold charsetOf
      simp [h1, h2, h3, h4]
    simp only [generatePassword]
    rw [if_pos hc]
  · intro henb
    have hpos : 0 < (charsetOf o).length := charsetOf_pos o henb
    have hne : ¬ (charsetOf o).length = 0 := by omega
    refine ⟨String.mk (fyShuffle rShuf (requiredOf o rL rU rN rS ++
      fillOf o rFill (max o.length (requiredOf o rL rU rN rS).length -
        (requiredOf o rL rU rN rS).length))),
      ?_, ?_, ?_, ?_, ?_, ?_, ?_, ?_, ?_, ?_⟩
    · simp only [generatePassword]
      rw [if_neg hne]
    · show (fyShuffle rShuf (requiredOf o rL rU rN rS ++
        fillOf o rFill (max o.length (requiredOf o rL rU rN rS).length -
          (requiredOf o rL rU rN rS).length))).length = max o.length (numEnabled o)
      rw [fyShuffle_length, List.length_append, fillOf_length,
        requiredOf_length]
      omega
    · intro hL
      refine ⟨LOWERCASE.data.getD (rL % LOWERCASE.data.length) 'a', ?_,
        pick_mem_class LOWERCASE rL (by decide)⟩
      show _ ∈ fyShuffle rShuf _
      rw [mem_fyShuffle]
      apply List.mem_append_left
      simp [requiredOf, hL]
    · intro hU
      refine ⟨UPPERCASE.data.getD (rU % UPPERCASE.data.length) 'a', ?_,
        pick_mem_class UPPERCASE rU (by decide)⟩
      show _ ∈ fyShuffle rShuf _
      rw [mem_fyShuffle]
      apply List.mem_append_left
      simp [requiredOf, hU]
    · intro hN
      refine ⟨NUMBERS.data.getD (rN % NUMBERS.data.length) 'a', ?_,
        pick_mem_class NUMBERS rN (by decide)⟩
      show _ ∈ fyShuffle rShuf _
      rw [mem_fyShuffle]
      apply List.mem_append_left
      simp [requiredOf, hN]
    · intro hS
      refine ⟨SYMBOLS.data.getD (rS % SYMBOLS.data.length) 'a', ?_,
        pick_mem_class SYMBOLS rS (by decide)⟩
      show _ ∈ fyShuffle rShuf _
      rw [mem_fyShuffle]
      apply List.mem_append_left
      simp [requiredOf, hS]
    · intro hL c hc
      have hc2 := (mem_fyShuffle rShuf _ c).mp hc
      exact notin_lower (gen_chars_enabled o rL rU rN rS rFill _ hpos c hc2) hL
    · intro hU c hc
      have hc2 := (mem_fyShuffle rShuf _ c).mp hc
      exact notin_upper (gen_chars_enabled o rL rU rN rS rFill _ hpos c hc2) hU
    · intro hN c hc
      have hc2 := (mem_fyShuffle rShuf _ c).mp hc
      exact notin_numbers (gen_chars_enabled o rL rU rN rS rFill _ hpos c hc2) hN
    · intro hS c hc
      have hc2 := (mem_fyShuffle rShuf _ c).mp hc
      exact notin_symbols (gen_chars_enabled o rL rU rN rS rFill _ hpos c hc2) hS

/-- Witness for C7: the default all-classes policy with requested length 8
at concrete random draws. -/
theorem generatePassword_spec_witness :
    ((PasswordOptions.mk 8 true true true true).includeLowercase = false ∧
        (PasswordOptions.mk 8 true true true true).includeUppercase = false ∧
        (PasswordOptions.mk 8 true true true true).includeNumbers = false ∧
        (PasswordOptions.mk 8 true true true true).includeSymbols = false →
      generatePassword (PasswordOptions.mk 8 true true true true) 0 0 0 0
        (fun _ => 0) (fun _ => 0) = Except.error policyErrorMsg)
    ∧ (((PasswordOptions.mk 8 true true true true).includeLowercase = true ∨
        (PasswordOptions.mk 8 true true true true).includeUppercase = true ∨
        (PasswordOptions.mk 8 true true true true).includeNumbers = true ∨
        (PasswordOptions.mk 8 true true true true).includeSymbols = true) →
      ∃ out : String, generatePassword (PasswordOptions.mk 8 true true true true)
          0 0 0 0 (fun _ => 0) (fun _ => 0) = Except.ok out
        ∧ out.length = max (PasswordOptions.mk 8 true true true true).length
            (numEnabled (PasswordOptions.mk 8 true true true true))
        ∧ ((PasswordOptions.mk 8 true true true true).includeLowercase = true →
            ∃ c, c ∈ out.data ∧ c ∈ LOWERCASE.data)
        ∧ ((PasswordOptions.mk 8 true true true true).includeUppercase = true →
            ∃ c, c ∈ out.data ∧ c ∈ UPPERCASE.data)
        ∧ ((PasswordOptions.mk 8 true true true true).includeNumbers = true →
            ∃ c, c ∈ out.data ∧ c ∈ NUMBERS.data)
        ∧ ((PasswordOptions.mk 8 true true true true).includeSymbols = true →
            ∃ c, c ∈ out.data ∧ c ∈ SYMBOLS.data)
        ∧ ((PasswordOptions.mk 8 true true true true).includeLowercase = false →
            ∀ c ∈ out.data, c ∉ LOWERCASE.data)
        ∧ ((PasswordOptions.mk 8 true true true true).includeUppercase = false →
            ∀ c ∈ out.data, c ∉ UPPERCASE.data)
        ∧ ((PasswordOptions.mk 8 true true true true).includeNumbers = false →
            ∀ c ∈ out.data, c ∉ NUMBERS.data)
        ∧ ((PasswordOptions.mk 8 true true true true).includeSymbols = false →
            ∀ c ∈ out.data, c ∉ SYMBOLS.data)) :=
  generatePassword_spec (PasswordOptions.mk 8 true true true true) 0 0 0 0
    (fun _ => 0) (fun _ => 0)

/-- The char classes tested by the evaluator's regexes `[a-z]`, `[A-Z]`,
`[0-9]` and the symbol set (the same 26 symbols as the generator's). -/
def isLowerChar (c : Char) : Bool := 'a' ≤ c && c ≤ 'z'

def isUpperChar (c : Char) : Bool := 'A' ≤ c && c ≤ 'Z'

def isDigitChar (c : Char) : Bool := '0' ≤ c && c ≤ '9'

def symbolRegexChars : List Char := "!@#$%^&*()_+-=[]\x7b\x7d|;:,.<>?".data

def isSymbolChar (c : Char) : Bool := symbolRegexChars.contains c

def hasLower (l : List Char) : Bool := l.any isLowerChar

def hasUpper (l : List Char) : Bool := l.any isUpperChar

def hasDigit (l : List Char) : Bool := l.any isDigitChar

def hasSymbol (l : List Char) : Bool := l.any isSymbolChar

/-- The regex `/(.)\1{2,}/`: three identical consecutive characters. -/
def hasRepeat : List Char → Bool
  | a :: b :: c :: rest => (a == b && b == c) || hasRepeat (b :: c :: rest)
  | _ => false

/-- `password.toLowerCase()` as a char list. -/
def listLower (l : List Char) : List Char := l.map Char.toLower

/-- The evaluator's feedback messages, verbatim. -/
def msgLower : String := "小文字を追加してください"

def msgUpper : String := "大文字を追加してください"

def msgDigit : String := "数字を追加してください"

def msgSymbol : String := "記号を追加してください"

def msgRepeat : String := "同じ文字の連続を避けてください"

def msgPattern : String := "一般的なパターンを避けてください"

def msgShort : String := "パスワードが短すぎます"

def msgStrong : String := "強力なパスワードです！"

def commonPatterns : List (List Char) :=
  ["123".data, "abc".data, "qwerty".data, "password".data, "admin".data]

/-- The `for … break` loop over `commonPatterns`: the first matching pattern
subtracts 15 and pushes the message once, then the loop stops. -/
def patLoop (lowerPw : List Char) : List (List Char) → Int × List String
  | [] => (0, [])
  | pat :: rest =>
    if jsIncludes lowerPw pat then (-15, [msgPattern]) else patLoop lowerPw rest

inductive Level
  | weak
  | fair
  | good
  | strong
deriving DecidableEq

structure StrengthResult where
  score : Int
  level : Level
  feedback : List String
deriving DecidableEq

/-- `Math.max(0, Math.min(100, score))`. -/
def clampScore (s : Int) : Int := max 0 (min 100 s)

/-- The score accumulated by `evaluatePasswordStrength` before clamping:
length bonuses, the four class bonuses, the repeat penalty, then the result
of the pattern loop, in source order. -/
def rawScore (l : List Char) : Int :=
  (if 8 ≤ l.length then (10 : Int) else 0) + (if 12 ≤ l.length then 15 else 0) +
  (if 16 ≤ l.length then 15 else 0) + (if 20 ≤ l.length then 10 else 0) +
  (if hasLower l then 10 else 0) + (if hasUpper l then 10 else 0) +
  (if hasDigit l then 10 else 0) + (if hasSymbol l then 15 else 0) -
  (if hasRepeat l then 10 else 0) + (patLoop (listLower l) commonPatterns).1

/-- The feedback accumulated before the level stage, in push order: one
message per missing class, the repeat message, then the pattern loop's
message. -/
def fbMain (l : List Char) : List String :=
  (if hasLower l then [] else [msgLower]) ++
  (if hasUpper l then [] else [msgUpper]) ++
  (if hasDigit l then [] else [msgDigit]) ++
  (if hasSymbol l then [] else [msgSymbol]) ++
  (if hasRepeat l then [msgRepeat] else []) ++
  (patLoop (listLower l) commonPatterns).2

/-- passwordGenerator.ts `evaluatePasswordStrength` on a char list: clamp
the accumulated score, derive the level, prepend the too-short warning for
weak short passwords and append the success message for strong passwords
with no other feedback. -/
def evalCore (l : List Char) : StrengthResult :=
  let score := clampScore (rawScore l)
  let feedback := fbMain l
  if score < 30 then
    ⟨score, Level.weak, if l.length < 8 then msgShort :: feedback else feedback⟩
  else if score < 50 then ⟨score, Level.fair, feedback⟩
  else if score < 75 then ⟨score, Level.good, feedback⟩
  else ⟨score, Level.strong,
    if feedback.isEmpty then feedback ++ [msgStrong] else feedback⟩

def evaluatePasswordStrength (password : String) : StrengthResult :=
  evalCore password.data

/-- Some common pattern occurs (case-insensitively). -/
def hasAnyPattern (l : List Char) : Bool :=
  commonPatterns.any (fun pat => jsIncludes (listLower l) pat)

/-- How many of the fixed common patterns occur (spec-side, for C9). -/
def patternHits (l : List Char) : Nat :=
  (commonPatterns.filter (fun pat => jsIncludes (listLower l) pat)).length

/-- The score before the pattern loop (spec-side, for C9). -/
def preScore (l : List Char) : Int :=
  (if 8 ≤ l.length then (10 : Int) else 0) + (if 12 ≤ l.length then 15 else 0) +
  (if 16 ≤ l.length then 15 else 0) + (if 20 ≤ l.length then 10 else 0) +
  (if hasLower l then 10 else 0) + (if hasUpper l then 10 else 0) +
  (if hasDigit l then 10 else 0) + (if hasSymbol l then 15 else 0) -
  (if hasRepeat l then 10 else 0)

theorem patLoop_fst (lp : List Char) (pats : List (List Char)) :
    (patLoop lp pats).1 =
      if pats.any (fun pat => jsIncludes lp pat) then -15 else 0 := by
  induction pats with
  | nil => rfl
  | cons p rest ih =>
    unfold patLoop
    by_cases hp : jsIncludes lp p
    · simp [hp]
    · simp [hp, ih]

theorem patLoop_snd (lp : List Char) (pats : List (List Char)) :
    (patLoop lp pats).2 =
      if pats.any (fun pat => jsIncludes lp pat) then [msgPattern] else [] := by
  induction pats with
  | nil => rfl
  | cons p rest ih =>
    unfold patLoop
    by_cases hp : jsIncludes lp p
    · simp [hp]
    · simp [hp, ih]

theorem patLoop_fst' (l : List Char) :
    (patLoop (listLower l) commonPatterns).1 =
      if hasAnyPattern l then -15 else 0 :=
  patLoop_fst (listLower l) commonPatterns

theorem patLoop_snd' (l : List Char) :
    (patLoop (listLower l) commonPatterns).2 =
      if hasAnyPattern l then [msgPattern] else [] :=
  patLoop_snd (listLower l) commonPatterns

theorem evalCore_score (l : List Char) :
    (evalCore l).score = clampScore (rawScore l) := by
  simp only [evalCore]
  split_ifs <;> rfl

theorem evalCore_feedback (l : List Char) :
    (evalCore l).feedback = fbMain l
    ∨ (evalCore l).feedback = msgShort :: fbMain l
    ∨ (evalCore l).feedback = fbMain l ++ [msgStrong] := by
  simp only [evalCore]
  split_ifs <;> simp

theorem clampScore_mono {a b : Int} (h : a ≤ b) :
    clampScore a ≤ clampScore b :=
  max_le_max le_rfl (min_le_min le_rfl h)

theorem ite_le_of_imp {p q : Prop} [Decidable p] [Decidable q] (k : Int)
    (hk : 0 ≤ k) (h : p → q) :
    (if p then k else 0) ≤ (if q then k else 0) := by
  by_cases hp : p
  · rw [if_pos hp, if_pos (h hp)]
  · rw [if_neg hp]
    split_ifs
    · exact hk
    · exact le_rfl

theorem ite_le_of_imp_neg {p q : Prop} [Decidable p] [Decidable q] (k : Int)
    (hk : k ≤ 0) (h : q → p) :
    (if p then k else 0) ≤ (if q then k else 0) := by
  by_cases hq : q
  · rw [if_pos hq, if_pos (h hq)]
  · rw [if_neg hq]
    split_ifs
    · exact hk
    · exact le_rfl

theorem any_append_one (l : List Char) (c : Char) (f : Char → Bool)
    (h : l.any f = true) : (l ++ [c]).any f = true := by
  rw [List.any_append]
  simp [h]

/-- Appending a character that does not occur in the list cannot create or
destroy a run of three identical characters. -/
theorem hasRepeat_append_single :
    ∀ (l : List Char) (c : Char), c ∉ l → hasRepeat (l ++ [c]) = hasRepeat l
  | [], _, _ => rfl
  | [_], _, _ => rfl
  | [a, b], c, h => by
    have hb : (b == c) = false :=
      beq_eq_false_iff_ne.mpr (fun hbc => h (by simp [hbc]))
    simp [hasRepeat, hb]
  | a :: b :: d :: rest, c, h => by
    have ih := hasRepeat_append_single (b :: d :: rest) c
      (fun hc => h (List.mem_cons_of_mem a hc))
    show ((a == b && b == d) || hasRepeat ((b :: d :: rest) ++ [c])) =
      ((a == b && b == d) || hasRepeat (b :: d :: rest))
    rw [ih]

theorem rawScore_append_mono (l : List Char) (c : Char)
    (hrep : hasRepeat (l ++ [c]) = hasRepeat l)
    (hpat : hasAnyPattern (l ++ [c]) = true → hasAnyPattern l = true) :
    rawScore l ≤ rawScore (l ++ [c]) := by
  have hlen : l.length ≤ (l ++ [c]).length := by simp
  have h1 : (if 8 ≤ l.length then (10 : Int) else 0) ≤
      (if 8 ≤ (l ++ [c]).length then 10 else 0) :=
    ite_le_of_imp 10 (by omega) (fun hp => le_trans hp hlen)
  have h2 : (if 12 ≤ l.length then (15 : Int) else 0) ≤
      (if 12 ≤ (l ++ [c]).length then 15 else 0) :=
    ite_le_of_imp 15 (by omega) (fun hp => le_trans hp hlen)
  have h3 : (if 16 ≤ l.length then (15 : Int) else 0) ≤
      (if 16 ≤ (l ++ [c]).length then 15 else 0) :=
    ite_le_of_imp 15 (by omega) (fun hp => le_trans hp hlen)
  have h4 : (if 20 ≤ l.length then (10 : Int) else 0) ≤
      (if 20 ≤ (l ++ [c]).length then 10 else 0) :=
    ite_le_of_imp 10 (by omega) (fun hp => le_trans hp hlen)
  have h5 : (if hasLower l then (10 : Int) else 0) ≤
      (if hasLower (l ++ [c]) then 10 else 0) :=
    ite_le_of_imp 10 (by omega) (any_append_one l c isLowerChar)
  have h6 : (if hasUpper l then (10 : Int) else 0) ≤
      (if hasUpper (l ++ [c]) then 10 else 0) :=
    ite_le_of_imp 10 (by omega) (any_append_one l c isUpperChar)
  have h7 : (if hasDigit l then (10 : Int) else 0) ≤
      (if hasDigit (l ++ [c]) then 10 else 0) :=
    ite_le_of_imp 10 (by omega) (any_append_one l c isDigitChar)
  have h8 : (if hasSymbol l then (15 : Int) else 0) ≤
      (if hasSymbol (l ++ [c]) then 15 else 0) :=
    ite_le_of_imp 15 (by omega) (any_append_one l c isSymbolChar)
  have hP : (if hasAnyPattern l then (-15 : Int) else 0) ≤
      (if hasAnyPattern (l ++ [c]) then -15 else 0) :=
    ite_le_of_imp_neg (-15) (by omega) hpat
  unfold rawScore
  rw [patLoop_fst', patLoop_fst', hrep]
  linarith [h1, h2, h3, h4, h5, h6, h7, h8, hP]

/-- The claim-side hypothesis of C8: `c` belongs to one of the evaluator's
four character classes and that class is entirely missing from the
password. -/
def MissingClassAppend (l : List Char) (c : Char) : Prop :=
  (isLowerChar c = true ∧ ∀ ch ∈ l, isLowerChar ch = false) ∨
  (isUpperChar c = true ∧ ∀ ch ∈ l, isUpperChar ch = false) ∨
  (isDigitChar c = true ∧ ∀ ch ∈ l, isDigitChar ch = false) ∨
  (isSymbolChar c = true ∧ ∀ ch ∈ l, isSymbolChar ch = false)

theorem missing_not_mem {l : List Char} {c : Char}
    (hm : MissingClassAppend l c) : c ∉ l := by
  rcases hm with ⟨hf, hall⟩ | ⟨hf, hall⟩ | ⟨hf, hall⟩ | ⟨hf, hall⟩ <;>
    (intro hc; rw [hall c hc] at hf; simp at hf)

theorem string_push_data (p : String) (c : Char) :
    (p.push c).data = p.data ++ [c] := by
  cases p
  rfl

/-- C8 counterexample: appending the lowercase 'c' (lowercase entirely
missing) to "AB" completes the common pattern "abc" case-insensitively and
strictly DECREASES the score (from 10 to 5), so the claimed monotonicity is
false as stated. -/
theorem strength_append_counterexample :
    isLowerChar 'c' = true
    ∧ (∀ ch ∈ "AB".data, isLowerChar ch = false)
    ∧ (evaluatePasswordStrength ("AB".push 'c')).score <
        (evaluatePasswordStrength "AB").score := by decide

/-- C8 (amended): appending a character of a class missing from the
password never decreases the score, PROVIDED the appended character does
not newly complete one of the fixed common substrings ('123', 'abc',
'qwerty', 'password', 'admin', case-insensitively) — the one exception the
counterexample exhibits.  (The repeat penalty can never newly fire, since
the appended character occurs nowhere in the password.) -/
theorem strength_append_missing_class_mono (p : String) (c : Char)
    (hm : MissingClassAppend p.data c)
    (hpat : hasAnyPattern (p.data ++ [c]) = true → hasAnyPattern p.data = true) :
    (evaluatePasswordStrength p).score ≤
      (evaluatePasswordStrength (p.push c)).score := by
  unfold evaluatePasswordStrength
  rw [string_push_data, evalCore_score, evalCore_score]
  exact clampScore_mono (rawScore_append_mono p.data c
    (hasRepeat_append_single p.data c (missing_not_mem hm)) hpat)

/-- Witness for C8's amended theorem: appending 'a' to "A". -/
theorem strength_append_missing_class_mono_witness :
    (evaluatePasswordStrength "A").score ≤
      (evaluatePasswordStrength ("A".push 'a')).score :=
  strength_append_missing_class_mono "A" 'a'
    (Or.inl ⟨by decide, by decide⟩) (by decide)

theorem count_fbMain (l : List Char) :
    (fbMain l).count msgPattern = if hasAnyPattern l then 1 else 0 := by
  unfold fbMain
  rw [patLoop_snd']
  split_ifs <;> decide

theorem count_feedback (l : List Char) :
    (evalCore l).feedback.count msgPattern =
      if hasAnyPattern l then 1 else 0 := by
  have hS : (msgPattern == msgShort) = false := by decide
  have hG : (msgPattern == msgStrong) = false := by decide
  have hS2 : ¬ msgShort = msgPattern := by decide
  have hG2 : ¬ msgStrong = msgPattern := by decide
  rcases evalCore_feedback l with h | h | h <;>
    simp [h, List.count_cons, List.count_append, count_fbMain l, hS, hG, hS2, hG2]

theorem patternHits_pos (l : List Char) :
    hasAnyPattern l = true ↔ 1 ≤ patternHits l := by
  unfold hasAnyPattern patternHits
  rw [List.any_eq_true]
  constructor
  · rintro ⟨pat, hmem, hinc⟩
    have hf : pat ∈ commonPatterns.filter (fun pat => jsIncludes (listLower l) pat) :=
      List.mem_filter.mpr ⟨hmem, hinc⟩
    have := List.length_pos.mpr (List.ne_nil_of_mem hf)
    omega
  · intro h
    have hne : commonPatterns.filter (fun pat => jsIncludes (listLower l) pat) ≠ [] := by
      intro h0
      rw [h0] at h
      simp at h
    obtain ⟨pat, hf⟩ := List.exists_mem_of_ne_nil _ hne
    obtain ⟨hmem, hinc⟩ := List.mem_filter.mp hf
    exact ⟨pat, hmem, hinc⟩

/-- C9: the common-pattern penalty is subtracted at most once and the
corresponding feedback message appended at most once, even when the
password contains several of the fixed common substrings: the pattern
feedback message occurs at most once in the output, and whenever at least
one (possibly several) pattern matches, the score is exactly the pre-loop
score minus a single 15, and the message occurs exactly once. -/
theorem strength_pattern_penalty_once (p : String) :
    (evaluatePasswordStrength p).feedback.count msgPattern ≤ 1
    ∧ (1 ≤ patternHits p.data →
        (evaluatePasswordStrength p).score = clampScore (preScore p.data - 15)
        ∧ (evaluatePasswordStrength p).feedback.count msgPattern = 1) := by
  constructor
  · unfold evaluatePasswordStrength
    rw [count_feedback]
    split_ifs <;> omega
  · intro h
    have hA : hasAnyPattern p.data = true := (patternHits_pos p.data).mpr h
    constructor
    · unfold evaluatePasswordStrength
      rw [evalCore_score]
      have hview : rawScore p.data = preScore p.data - 15 := by
        unfold rawScore preScore
        rw [patLoop_fst', hA, if_pos rfl]
        ring
      rw [hview]
    · unfold evaluatePasswordStrength
      rw [count_feedback, if_pos hA]

/-- Witness for C9 at "abc123", which contains two common patterns
("abc" and "123"). -/
theorem strength_pattern_penalty_once_witness :
    (evaluatePasswordStrength "abc123").feedback.count msgPattern ≤ 1
    ∧ (evaluatePasswordStrength "abc123").score =
        clampScore (preScore "abc123".data - 15)
    ∧ (evaluatePasswordStrength "abc123").feedback.count msgPattern = 1 :=
  ⟨(strength_pattern_penalty_once "abc123").1,
   ((strength_pattern_penalty_once "abc123").2 (by decide)).1,
   ((strength_pattern_penalty_once "abc123").2 (by decide)).2⟩
